import Mathlib

/-!
Verification of the think-tool notebook server (`src/think-tool.go`).

The program keeps a single slice of `ThoughtItem` values guarded by a mutex
and exposes three operations: `Think` (append a thought), `GetThoughts`
(render every thought), and `ClearThoughts` (reset the slice).

Go strings are sequences of bytes; `len` and slicing (`s[:50]`) act on
bytes, not on Unicode characters.  We therefore embed a Go string as the
list of its UTF-8 bytes (`Bytes := List Nat`), and embed a Lean string
literal through an explicit UTF-8 encoder so that byte-level behaviour
(in particular the truncation in `tidyThought`) is modelled exactly.

Each method of `ThinkTool` becomes a pure function from the pre-state
(the `thoughts` slice) to the pair of the post-state and the returned
value: `Except Bytes Bytes` carries either the error message built by
`errors.New` or the text content of the successful result.  The mutex
makes every call a serialized atomic step, so concurrent executions are
modelled as an arbitrary sequential order of the same calls
(`ThinkAll`).  The timestamp produced by `time.Now().Format(time.RFC3339)`
is an input of the model (`now`).
-/

deriving instance DecidableEq for Except

/-- A Go string, viewed as the list of its UTF-8 bytes. -/
abbrev Bytes := List Nat

/-- UTF-8 encoding of a single Unicode code point as its list of bytes. -/
def utf8EncodeCharNat (c : Nat) : List Nat :=
  if c < 128 then [c]
  else if c < 2048 then [192 + c / 64, 128 + c % 64]
  else if c < 65536 then [224 + c / 4096, 128 + c / 64 % 64, 128 + c % 64]
  else [240 + c / 262144, 128 + c / 4096 % 64, 128 + c / 64 % 64, 128 + c % 64]

/-- The UTF-8 bytes of a string, i.e. what Go's `len` and slicing see. -/
def strBytes (s : String) : Bytes :=
  s.data.flatMap (fun c => utf8EncodeCharNat c.toNat)

/-- `ThoughtItem` from `src/think-tool.go`: one recorded thought together
with the timestamp captured at insertion time. -/
structure ThoughtItem where
  Thought : Bytes
  CreatedAt : Bytes
deriving DecidableEq

/-- `tidyThought` from `src/think-tool.go`: if the thought is longer than
50 bytes, keep the first 50 bytes and append the marker, else return it
unchanged. -/
def tidyThought (thought : Bytes) : Bytes :=
  if thought.length > 50 then thought.take 50 ++ strBytes "..." else thought

namespace ThinkTool

/-- `ThinkTool.Think`: reject an empty thought with an error and no state
change; otherwise append a new `ThoughtItem` holding the full thought and
the current timestamp, and acknowledge with the tidied echo. -/
def Think (thoughts : List ThoughtItem) (thought : Bytes) (now : Bytes) :
    List ThoughtItem × Except Bytes Bytes :=
  if thought.length = 0 then
    (thoughts, Except.error (strBytes "no thoughts provided"))
  else
    (thoughts ++ [⟨thought, now⟩],
     Except.ok (strBytes "Thought: " ++ tidyThought thought))

/-- The paragraph built for entry number `idx` inside
`ThinkTool.GetThoughts` (`fmt.Sprintf` with index, timestamp, thought). -/
def formatThought (idx : Nat) (item : ThoughtItem) : Bytes :=
  strBytes ("Thought #" ++ toString idx ++ " at ") ++ item.CreatedAt ++
    strBytes ":\n" ++ item.Thought ++ strBytes "\n"

/-- `ThinkTool.GetThoughts`: fail on an empty slice, otherwise render every
thought in order with its 1-based index, joined by newlines.  The state is
returned unchanged: the method body never writes to the slice. -/
def GetThoughts (thoughts : List ThoughtItem) :
    List ThoughtItem × Except Bytes Bytes :=
  if thoughts.length = 0 then
    (thoughts, Except.error (strBytes
      "no thoughts recorded. Use the think tool to record a thought first."))
  else
    (thoughts, Except.ok (List.intercalate (strBytes "\n")
      (thoughts.enum.map (fun p => formatThought (p.1 + 1) p.2))))

/-- `ThinkTool.ClearThoughts`: replace the slice by the empty slice and
acknowledge with the fixed text; this method cannot fail. -/
def ClearThoughts (thoughts : List ThoughtItem) :
    List ThoughtItem × Except Bytes Bytes :=
  ([], Except.ok (strBytes "Thoughts cleared."))

/-- A sequence of `Think` calls executed one after the other (the mutex
serializes every call); stops at the first error. -/
def ThinkAll (thoughts : List ThoughtItem) (calls : List (Bytes × Bytes)) :
    Except Bytes (List ThoughtItem) :=
  match calls with
  | [] => Except.ok thoughts
  | c :: rest =>
    match Think thoughts c.1 c.2 with
    | (t1, Except.ok _) => ThinkAll t1 rest
    | (_, Except.error e) => Except.error e

end ThinkTool

open ThinkTool

/-- Helper: a run of `Think` calls whose thoughts are all non-empty succeeds
and appends the corresponding items, in call order, to the initial state. -/
theorem ThinkAll_ok (calls : List (Bytes × Bytes)) :
    ∀ t : List ThoughtItem, (∀ p ∈ calls, p.1 ≠ []) →
      ThinkAll t calls =
        Except.ok (t ++ calls.map fun p => ⟨p.1, p.2⟩) := by
  induction calls with
  | nil => intro t _; simp [ThinkAll]
  | cons c rest ih =>
    intro t h
    have hc : c.1 ≠ [] := h c (by simp)
    have hlen : ¬ c.1.length = 0 := by simpa [List.length_eq_zero] using hc
    unfold ThinkAll Think
    rw [if_neg hlen]
    show ThinkAll (t ++ [⟨c.1, c.2⟩]) rest = _
    rw [ih (t ++ [(⟨c.1, c.2⟩ : ThoughtItem)]) (fun p hp => h p (by simp [hp]))]
    simp

/-- Helper: enumerating a mapped list and then mapping is enumerating the
original list and mapping the composition. -/
theorem enumFrom_map_comp {α β γ : Type _} (f : α → β) (g : Nat × β → γ)
    (l : List α) : ∀ n : Nat,
      ((l.map f).enumFrom n).map g =
        (l.enumFrom n).map (fun p => g (p.1, f p.2)) := by
  induction l with
  | nil => intro n; simp
  | cons a rest ih => intro n; simp [List.enumFrom, ih]

/-- Helper: in a duplicate-free list every member has count one. -/
theorem count_one_of_nodup_mem {l : List Bytes} {c : Bytes}
    (hn : l.Nodup) (hc : c ∈ l) : l.count c = 1 := by
  induction l with
  | nil => cases hc
  | cons a rest ih =>
    rw [List.count_cons]
    rcases List.mem_cons.mp hc with h | h
    · subst h
      have h0 : rest.count c = 0 :=
        List.count_eq_zero.mpr (List.nodup_cons.mp hn).1
      simp [h0]
    · have hne : a ≠ c := fun he => (List.nodup_cons.mp hn).1 (he ▸ h)
      have hb : (a == c) = false := by simp [hne]
      rw [ih (List.nodup_cons.mp hn).2 h, hb]
      simp

/-- C1: for every non-empty thought `s`, `Think` succeeds, the slice grows
by exactly one, and the new last item stores `s` unaltered. -/
theorem Think_appends_exactly_one (thoughts : List ThoughtItem)
    (s now : Bytes) (h : s ≠ []) :
    (Think thoughts s now).1.length = thoughts.length + 1 ∧
    (Think thoughts s now).1.getLast? = some ⟨s, now⟩ ∧
    ∃ ack, (Think thoughts s now).2 = Except.ok ack := by
  have hlen : ¬ s.length = 0 := by simpa [List.length_eq_zero] using h
  unfold Think
  rw [if_neg hlen]
  exact ⟨by simp, by simp, ⟨_, rfl⟩⟩

/-- C1 witness at a concrete input. -/
theorem Think_appends_exactly_one_witness :
    (Think [] (strBytes "hi") (strBytes "2025-01-01T00:00:00Z")).1.length =
      ([] : List ThoughtItem).length + 1 ∧
    (Think [] (strBytes "hi") (strBytes "2025-01-01T00:00:00Z")).1.getLast? =
      some ⟨strBytes "hi", strBytes "2025-01-01T00:00:00Z"⟩ ∧
    ∃ ack, (Think [] (strBytes "hi") (strBytes "2025-01-01T00:00:00Z")).2 =
      Except.ok ack :=
  Think_appends_exactly_one [] (strBytes "hi")
    (strBytes "2025-01-01T00:00:00Z") (by decide)

/-- C2: `Think` with the empty thought returns the `no thoughts provided`
error and leaves the slice untouched. -/
theorem Think_empty_rejected (thoughts : List ThoughtItem) (now : Bytes) :
    (Think thoughts [] now).2 =
      Except.error (strBytes "no thoughts provided") ∧
    (Think thoughts [] now).1 = thoughts := by
  simp [Think]

/-- A 26-character string whose UTF-8 encoding is 52 bytes long. -/
def c3Input : String := "éééééééééééééééééééééééééé"

/-- C3 counterexample: the truncation threshold is not measured in
characters.  `c3Input` has 26 characters, at most 50, so by the claim the
echo would be the input itself; but its 52-byte encoding exceeds the
50-byte threshold of `tidyThought`, so the echo is truncated and the
acknowledgement of `Think` is not the untruncated echo. -/
theorem tidyThought_charlen_counterexample :
    c3Input.length = 26 ∧
    c3Input.length ≤ 50 ∧
    tidyThought (strBytes c3Input) ≠ strBytes c3Input ∧
    (Think [] (strBytes c3Input) (strBytes "t")).2 ≠
      Except.ok (strBytes "Thought: " ++ strBytes c3Input) := by
  exact ⟨by decide, by decide, by decide, by decide⟩

/-- C3 amended: thresholds measured in bytes.  For every non-empty `s`,
the acknowledgement of `Think` is the text `Thought: ` followed by an echo
of at most 53 bytes: the echo is `s` itself when `s` is at most 50 bytes
long, and otherwise the first 50 bytes of `s` followed by `...`; the
stored entry keeps the full untruncated `s` in both cases. -/
theorem Think_ack_byte_truncation (thoughts : List ThoughtItem)
    (s now : Bytes) (h : s ≠ []) :
    (Think thoughts s now).2 =
      Except.ok (strBytes "Thought: " ++ tidyThought s) ∧
    (tidyThought s).length ≤ 53 ∧
    (s.length ≤ 50 → tidyThought s = s) ∧
    (50 < s.length → tidyThought s = s.take 50 ++ strBytes "...") ∧
    (Think thoughts s now).1.getLast? = some ⟨s, now⟩ := by
  have hlen : ¬ s.length = 0 := by simpa [List.length_eq_zero] using h
  have hdots : (strBytes "...").length = 3 := by decide
  refine ⟨?_, ?_, ?_, ?_, ?_⟩
  · unfold Think; rw [if_neg hlen]
  · unfold tidyThought
    by_cases h50 : s.length > 50
    · rw [if_pos h50]
      simp only [List.length_append, List.length_take, hdots]
      omega
    · rw [if_neg h50]
      omega
  · intro hle
    unfold tidyThought
    rw [if_neg (by omega)]
  · intro hgt
    unfold tidyThought
    rw [if_pos hgt]
  · unfold Think
    rw [if_neg hlen]
    simp

/-- C3 witness at a 51-byte input: the echo is the first 50 bytes and the
marker, and the stored entry is untruncated. -/
theorem Think_ack_byte_truncation_witness :
    (strBytes "aaaaaaaaaaaaaaaaaaaaaaaaaaaaaaaaaaaaaaaaaaaaaaaaaab") ≠ [] ∧
    (Think [] (strBytes "aaaaaaaaaaaaaaaaaaaaaaaaaaaaaaaaaaaaaaaaaaaaaaaaaab")
        (strBytes "t")).2 =
      Except.ok (strBytes "Thought: " ++
        tidyThought
          (strBytes "aaaaaaaaaaaaaaaaaaaaaaaaaaaaaaaaaaaaaaaaaaaaaaaaaab")) ∧
    (50 < (strBytes "aaaaaaaaaaaaaaaaaaaaaaaaaaaaaaaaaaaaaaaaaaaaaaaaaab").length →
      tidyThought (strBytes "aaaaaaaaaaaaaaaaaaaaaaaaaaaaaaaaaaaaaaaaaaaaaaaaaab") =
        (strBytes "aaaaaaaaaaaaaaaaaaaaaaaaaaaaaaaaaaaaaaaaaaaaaaaaaab").take 50 ++
          strBytes "...") ∧
    (Think [] (strBytes "aaaaaaaaaaaaaaaaaaaaaaaaaaaaaaaaaaaaaaaaaaaaaaaaaab")
        (strBytes "t")).1.getLast? =
      some ⟨strBytes "aaaaaaaaaaaaaaaaaaaaaaaaaaaaaaaaaaaaaaaaaaaaaaaaaab",
        strBytes "t"⟩ := by
  have h := Think_ack_byte_truncation []
    (strBytes "aaaaaaaaaaaaaaaaaaaaaaaaaaaaaaaaaaaaaaaaaaaaaaaaaab")
    (strBytes "t") (by decide)
  exact ⟨by decide, h.1, h.2.2.2.1, h.2.2.2.2⟩

/-- C4: starting from the empty notebook, a run of successful `Think` calls
with contents and timestamps `calls` stores exactly those items in call
order, and `GetThoughts` then succeeds and renders them in the same order,
each as the paragraph with its 1-based index, timestamp and full content,
joined by newlines. -/
theorem GetThoughts_insertion_order (calls : List (Bytes × Bytes))
    (hne : calls ≠ []) (h : ∀ p ∈ calls, p.1 ≠ []) :
    ThinkAll [] calls =
      Except.ok (calls.map fun p => ⟨p.1, p.2⟩) ∧
    (GetThoughts (calls.map fun p => (⟨p.1, p.2⟩ : ThoughtItem))).2 =
      Except.ok (List.intercalate (strBytes "\n")
        (calls.enum.map fun p =>
          formatThought (p.1 + 1) ⟨p.2.1, p.2.2⟩)) := by
  constructor
  · simpa using ThinkAll_ok calls [] h
  · have hlen : ¬ (calls.map fun p => (⟨p.1, p.2⟩ : ThoughtItem)).length = 0 := by
      simpa [List.length_eq_zero] using hne
    unfold GetThoughts
    rw [if_neg hlen]
    show Except.ok (List.intercalate (strBytes "\n")
      (((calls.map fun p => (⟨p.1, p.2⟩ : ThoughtItem)).enumFrom 0).map
        (fun p => formatThought (p.1 + 1) p.2))) = _
    rw [enumFrom_map_comp]
    rfl

/-- C4 witness at two concrete calls. -/
theorem GetThoughts_insertion_order_witness :
    ThinkAll [] [(strBytes "a", strBytes "t1"), (strBytes "b", strBytes "t2")] =
      Except.ok ([(strBytes "a", strBytes "t1"),
        (strBytes "b", strBytes "t2")].map fun p => ⟨p.1, p.2⟩) ∧
    (GetThoughts ([(strBytes "a", strBytes "t1"),
        (strBytes "b", strBytes "t2")].map fun p => (⟨p.1, p.2⟩ : ThoughtItem))).2 =
      Except.ok (List.intercalate (strBytes "\n")
        ([(strBytes "a", strBytes "t1"), (strBytes "b", strBytes "t2")].enum.map
          fun p => formatThought (p.1 + 1) ⟨p.2.1, p.2.2⟩)) :=
  GetThoughts_insertion_order
    [(strBytes "a", strBytes "t1"), (strBytes "b", strBytes "t2")]
    (by decide) (by decide)

/-- C5: `GetThoughts` returns the empty-state error exactly when the slice
is empty, and succeeds on every non-empty slice. -/
theorem GetThoughts_emptystate_iff (thoughts : List ThoughtItem) :
    ((GetThoughts thoughts).2 = Except.error (strBytes
        "no thoughts recorded. Use the think tool to record a thought first.") ↔
      thoughts = []) ∧
    (thoughts ≠ [] → ∃ out, (GetThoughts thoughts).2 = Except.ok out) := by
  by_cases hne : thoughts = []
  · subst hne
    refine ⟨⟨fun _ => rfl, fun _ => by simp [GetThoughts]⟩, ?_⟩
    intro hfalse
    exact absurd rfl hfalse
  · have hlen : ¬ thoughts.length = 0 := by
      simpa [List.length_eq_zero] using hne
    constructor
    · constructor
      · intro hErr
        unfold GetThoughts at hErr
        rw [if_neg hlen] at hErr
        exact absurd hErr (by simp)
      · intro hEq
        exact absurd hEq hne
    · intro _
      unfold GetThoughts
      rw [if_neg hlen]
      exact ⟨_, rfl⟩

/-- C5 witness: the fresh notebook fails with the instructing error and a
one-entry notebook succeeds. -/
theorem GetThoughts_emptystate_iff_witness :
    (GetThoughts []).2 = Except.error (strBytes
      "no thoughts recorded. Use the think tool to record a thought first.") ∧
    ∃ out, (GetThoughts [(⟨strBytes "a", strBytes "t"⟩ : ThoughtItem)]).2 =
      Except.ok out :=
  ⟨(GetThoughts_emptystate_iff []).1.mpr rfl,
   (GetThoughts_emptystate_iff [(⟨strBytes "a", strBytes "t"⟩ : ThoughtItem)]).2
     (by decide)⟩

/-- C6: `ClearThoughts` always succeeds with the fixed acknowledgement and
empties the slice; a second consecutive call is a no-op success with the
count remaining 0. -/
theorem ClearThoughts_idempotent (thoughts : List ThoughtItem) :
    ClearThoughts thoughts = ([], Except.ok (strBytes "Thoughts cleared.")) ∧
    ClearThoughts (ClearThoughts thoughts).1 = ClearThoughts thoughts ∧
    (ClearThoughts (ClearThoughts thoughts).1).1.length = 0 := by
  exact ⟨rfl, rfl, rfl⟩

/-- C7: `GetThoughts` is read-only: the slice after the call equals the
slice before it, whether the call fails on the empty slice or succeeds. -/
theorem GetThoughts_readonly (thoughts : List ThoughtItem) :
    (GetThoughts thoughts).1 = thoughts := by
  unfold GetThoughts
  split <;> rfl

/-- C8: concurrent `Think` calls are serialized by the mutex, so a batch of
calls with distinct non-empty contents, executed in any serialization
order, all succeed, the final count equals the batch size, and every
submitted content is stored exactly once, with `GetThoughts` then
succeeding. -/
theorem Think_concurrent_serialized (calls : List (Bytes × Bytes))
    (hnodup : (calls.map Prod.fst).Nodup) (hne : calls ≠ [])
    (h : ∀ p ∈ calls, p.1 ≠ []) :
    ∃ st, ThinkAll [] calls = Except.ok st ∧
      st.length = calls.length ∧
      (∀ c ∈ calls.map Prod.fst, (st.map ThoughtItem.Thought).count c = 1) ∧
      ∃ out, (GetThoughts st).2 = Except.ok out := by
  refine ⟨calls.map fun p => ⟨p.1, p.2⟩, by simpa using ThinkAll_ok calls [] h,
    by simp, ?_, ?_⟩
  · intro c hc
    have hmap : (calls.map fun p => (⟨p.1, p.2⟩ : ThoughtItem)).map
        ThoughtItem.Thought = calls.map Prod.fst := by
      rw [List.map_map]; rfl
    rw [hmap]
    exact count_one_of_nodup_mem hnodup hc
  · have hlen : ¬ (calls.map fun p => (⟨p.1, p.2⟩ : ThoughtItem)).length = 0 := by
      simpa [List.length_eq_zero] using hne
    unfold GetThoughts
    rw [if_neg hlen]
    exact ⟨_, rfl⟩

/-- C8 witness with two distinct contents. -/
theorem Think_concurrent_serialized_witness :
    ∃ st, ThinkAll []
        [(strBytes "a", strBytes "t1"), (strBytes "b", strBytes "t2")] =
      Except.ok st ∧
      st.length = [(strBytes "a", strBytes "t1"),
        (strBytes "b", strBytes "t2")].length ∧
      (∀ c ∈ [(strBytes "a", strBytes "t1"),
          (strBytes "b", strBytes "t2")].map Prod.fst,
        (st.map ThoughtItem.Thought).count c = 1) ∧
      ∃ out, (GetThoughts st).2 = Except.ok out :=
  Think_concurrent_serialized
    [(strBytes "a", strBytes "t1"), (strBytes "b", strBytes "t2")]
    (by decide) (by decide) (by decide)

/-- C9: the truncation threshold and slice are measured in bytes: for every
thought longer than 50 bytes, the acknowledgement echoes exactly the first
50 bytes followed by the marker, while the stored entry keeps the intact
full input. -/
theorem Think_truncates_by_bytes (thoughts : List ThoughtItem)
    (s now : Bytes) (h : 50 < s.length) :
    tidyThought s = s.take 50 ++ strBytes "..." ∧
    (Think thoughts s now).2 =
      Except.ok (strBytes "Thought: " ++ (s.take 50 ++ strBytes "...")) ∧
    (Think thoughts s now).1.getLast? = some ⟨s, now⟩ := by
  have hlen : ¬ s.length = 0 := by omega
  have htidy : tidyThought s = s.take 50 ++ strBytes "..." := by
    unfold tidyThought
    rw [if_pos h]
  refine ⟨htidy, ?_, ?_⟩
  · unfold Think
    rw [if_neg hlen, htidy]
  · unfold Think
    rw [if_neg hlen]
    simp

/-- C9 witness: a 51-byte input consisting of 49 ASCII bytes followed by
the 2-byte character é is echoed cut mid-character: the first 50 bytes end
with the lone leading byte 195 of é, while the stored entry is intact. -/
theorem Think_truncates_by_bytes_witness :
    50 < (strBytes "aaaaaaaaaaaaaaaaaaaaaaaaaaaaaaaaaaaaaaaaaaaaaaaaaé").length ∧
    tidyThought (strBytes "aaaaaaaaaaaaaaaaaaaaaaaaaaaaaaaaaaaaaaaaaaaaaaaaaé") =
      (strBytes "aaaaaaaaaaaaaaaaaaaaaaaaaaaaaaaaaaaaaaaaaaaaaaaaaé").take 50 ++
        strBytes "..." ∧
    (strBytes "aaaaaaaaaaaaaaaaaaaaaaaaaaaaaaaaaaaaaaaaaaaaaaaaaé").take 50 =
      List.replicate 49 97 ++ [195] ∧
    (Think [] (strBytes "aaaaaaaaaaaaaaaaaaaaaaaaaaaaaaaaaaaaaaaaaaaaaaaaaé")
        (strBytes "t")).1.getLast? =
      some ⟨strBytes "aaaaaaaaaaaaaaaaaaaaaaaaaaaaaaaaaaaaaaaaaaaaaaaaaé",
        strBytes "t"⟩ := by
  have h := Think_truncates_by_bytes []
    (strBytes "aaaaaaaaaaaaaaaaaaaaaaaaaaaaaaaaaaaaaaaaaaaaaaaaaé")
    (strBytes "t") (by decide)
  exact ⟨by decide, h.1, by decide, h.2.2⟩

/-- C10: `Think` applies no trimming or normalization: every thought of at
least one byte, whitespace included, is accepted and stored verbatim, and
only the exactly-empty thought is rejected. -/
theorem Think_stores_verbatim (thoughts : List ThoughtItem)
    (s now : Bytes) :
    (s ≠ [] →
      (Think thoughts s now).1 = thoughts ++ [⟨s, now⟩] ∧
      ∃ ack, (Think thoughts s now).2 = Except.ok ack) ∧
    (Think thoughts [] now).2 =
      Except.error (strBytes "no thoughts provided") := by
  constructor
  · intro h
    have hlen : ¬ s.length = 0 := by simpa [List.length_eq_zero] using h
    unfold Think
    rw [if_neg hlen]
    exact ⟨rfl, ⟨_, rfl⟩⟩
  · rfl

/-- C10 witness at a whitespace-only input: three spaces are accepted and
stored verbatim. -/
theorem Think_stores_verbatim_witness :
    ((strBytes "   ") ≠ [] →
      (Think [] (strBytes "   ") (strBytes "t")).1 =
        [] ++ [⟨strBytes "   ", strBytes "t"⟩] ∧
      ∃ ack, (Think [] (strBytes "   ") (strBytes "t")).2 = Except.ok ack) ∧
    (Think [] [] (strBytes "t")).2 =
      Except.error (strBytes "no thoughts provided") :=
  Think_stores_verbatim [] (strBytes "   ") (strBytes "t")
